import Mathlib

/-!
Shallow embedding of the instrument store of `src/market.py`
(class `MarketData`): per-symbol JSON documents holding a price, a
bounded price history, and in-process activity scores.

Timestamps (`datetime.utcnow().isoformat()` in the source) are opaque
values; we model them as natural numbers supplied by the caller ("now").
Python floats (volatility, activity scores after decay) are modelled as
rationals.  A stock file on disk is either absent, unparseable
(`json.JSONDecodeError` / `IOError` on read), or a well-formed document.
-/

namespace VnStocks

/-- One entry of `price_history`: `{'timestamp': ..., 'price': ...}`. -/
structure PriceSample where
  timestamp : Nat
  price : Int
  deriving DecidableEq, Repr

/-- The per-symbol document written by `MarketData` (`stock_data` dict in
`MarketData.initialize`). -/
structure StockData where
  team_name : String
  symbol : String
  starting_price : Int
  current_price : Int
  volatility : ℚ
  price_history : List PriceSample
  deriving DecidableEq, Repr

/-- State of one symbol's JSON file on disk: absent, present but failing to
parse, or present and well-formed. -/
inductive FileState where
  | missing
  | corrupt
  | good (d : StockData)
  deriving DecidableEq, Repr

/-- Per-team configuration entry (`config.TEAMS[symbol]`). -/
structure Team where
  name : String
  starting_price : Int
  volatility : ℚ
  deriving DecidableEq, Repr

/-- Modelled from the spec: the configuration module (imported as `config`
by `src/market.py`) is not under src/.  Per the spec it supplies the team
table with per-symbol starting price and volatility, the history cap `H`
(`PRICE_HISTORY_MAX`) and the activity decay factor `d`
(`ACTIVITY_DECAY`).  `TEAMS` is a Python dict, so its keys (the
configured symbols) are unique. -/
structure Config where
  TEAMS : List (String × Team)
  PRICE_HISTORY_MAX : Nat
  ACTIVITY_DECAY : ℚ

/-- Durable storage: one file state per symbol (the data directory). -/
def Store : Type := String → FileState

/-- Overwrite one symbol's file. -/
def setFile (st : Store) (sym : String) (f : FileState) : Store :=
  fun s => if s = sym then f else st s

/-- The configured symbols, `config.TEAMS.keys()`. -/
def configuredSymbols (cfg : Config) : List String :=
  cfg.TEAMS.map Prod.fst

/-- `MarketData._read_stock_data`: `None` when the file is absent or fails
to parse, otherwise the parsed document. -/
def read_stock_data (st : Store) (sym : String) : Option StockData :=
  match st sym with
  | FileState.good d => some d
  | _ => none

/-- `MarketData._write_stock_data`: (re)write the symbol's file. -/
def write_stock_data (st : Store) (sym : String) (d : StockData) : Store :=
  setFile st sym (FileState.good d)

/-- The seed document created by `MarketData.initialize` for a fresh
symbol: `current_price = starting_price`, history holding the single
seed sample. -/
def seedDoc (sym : String) (team : Team) (now : Nat) : StockData :=
  { team_name := team.name
    symbol := sym
    starting_price := team.starting_price
    current_price := team.starting_price
    volatility := team.volatility
    price_history := [{ timestamp := now, price := team.starting_price }] }

/-- One iteration of the loop in `MarketData.initialize`: create the
symbol's file only when it does not already exist on disk
(`os.path.exists`); an existing-but-corrupt file also counts as
existing. -/
def initStep (now : Nat) (st : Store) (p : String × Team) : Store :=
  if st p.1 = FileState.missing then write_stock_data st p.1 (seedDoc p.1 p.2 now) else st

/-- `MarketData.initialize`: seed a document for every configured symbol
whose file does not yet exist. -/
def initMarket (cfg : Config) (st : Store) (now : Nat) : Store :=
  cfg.TEAMS.foldl (initStep now) st

/-- `MarketData.get_price`: the document's `current_price`, or `None` when
the document is absent/unreadable. -/
def get_price (st : Store) (sym : String) : Option Int :=
  match read_stock_data st sym with
  | some d => some d.current_price
  | none => none

/-- `MarketData.get_stock_info`. -/
def get_stock_info (st : Store) (sym : String) : Option StockData :=
  read_stock_data st sym

/-- `MarketData.get_all_stocks`: loop over the configured symbols,
keeping every document that reads successfully. -/
def get_all_stocks (cfg : Config) (st : Store) : List StockData :=
  cfg.TEAMS.filterMap (fun p => read_stock_data st p.1)

/-- Python's `l[-k:]` for a natural `k`: the whole list when `k = 0`
(since `-0 = 0`), otherwise the last `k` elements. -/
def pySliceLast (k : Nat) (l : List PriceSample) : List PriceSample :=
  if k = 0 then l else l.drop (l.length - k)

/-- The history trim of `MarketData.update_price`: only when the history
exceeds `PRICE_HISTORY_MAX` is it cut down to
`price_history[-PRICE_HISTORY_MAX:]`. -/
def trimHistory (cap : Nat) (l : List PriceSample) : List PriceSample :=
  if cap < l.length then pySliceLast cap l else l

/-- `MarketData.update_price`: no-op when the document is absent or
unreadable; otherwise set `current_price`, append one timestamped sample,
trim to the cap, and persist. -/
def update_price (cfg : Config) (st : Store) (sym : String) (new_price : Int) (now : Nat) :
    Store :=
  match read_stock_data st sym with
  | none => st
  | some d =>
      write_stock_data st sym
        { d with
          current_price := new_price
          price_history :=
            trimHistory cfg.PRICE_HISTORY_MAX
              (d.price_history ++ [{ timestamp := now, price := new_price }]) }

/-- One iteration of the loop in `MarketData.reset_prices`: restore
`starting_price` and append one history sample — with no trim. -/
def resetStep (now : Nat) (st : Store) (p : String × Team) : Store :=
  match read_stock_data st p.1 with
  | none => st
  | some d =>
      write_stock_data st p.1
        { d with
          current_price := p.2.starting_price
          price_history :=
            d.price_history ++ [{ timestamp := now, price := p.2.starting_price }] }

/-- `MarketData.reset_prices`: reset every configured symbol. -/
def reset_prices (cfg : Config) (st : Store) (now : Nat) : Store :=
  cfg.TEAMS.foldl (resetStep now) st

/-- Python's `l[s:]` for an integer start index `s`, as used by
`history[-limit:]`: a non-negative start drops that many elements from
the front; a negative start keeps the last `-s` elements. -/
def pySliceFrom (s : Int) (l : List PriceSample) : List PriceSample :=
  if 0 ≤ s then l.drop s.toNat else l.drop (l.length - (-s).toNat)

/-- `MarketData.get_price_history`: `[]` for an unreadable document; the
full history when `limit` is `None` **or `0`** (Python truthiness of
`if limit:`); otherwise `history[-limit:]`. -/
def get_price_history (st : Store) (sym : String) (limit : Option Int) : List PriceSample :=
  match read_stock_data st sym with
  | none => []
  | some d =>
      match limit with
      | none => d.price_history
      | some k => if k = 0 then d.price_history else pySliceFrom (-k) d.price_history

/-- The in-process activity dict, `MarketData.activity_scores`; its key
set is `config.TEAMS.keys()`, fixed at construction.  Scores start as the
integer 0 and become floats after a decay; both are modelled as ℚ. -/
def initialActivity : String → ℚ := fun _ => 0

/-- `MarketData.increment_activity`: add 1, silently ignoring symbols not
in the dict. -/
def increment_activity (cfg : Config) (a : String → ℚ) (sym : String) : String → ℚ :=
  if (configuredSymbols cfg).contains sym then
    fun s => if s = sym then a s + 1 else a s
  else a

/-- `MarketData.get_activity_score`: `dict.get(symbol, 0)`. -/
def get_activity_score (cfg : Config) (a : String → ℚ) (sym : String) : ℚ :=
  if (configuredSymbols cfg).contains sym then a sym else 0

/-- `MarketData.decay_activity`: multiply every tracked score by
`config.ACTIVITY_DECAY`. -/
def decay_activity (cfg : Config) (a : String → ℚ) : String → ℚ :=
  fun s => if (configuredSymbols cfg).contains s then a s * cfg.ACTIVITY_DECAY else a s

/-- Iterated `increment_activity` for one symbol. -/
def iterate_increments (cfg : Config) (sym : String) : Nat → (String → ℚ) → String → ℚ
  | 0, a => a
  | Nat.succ m, a => increment_activity cfg (iterate_increments cfg sym m a) sym

/-- A sequence of `update_price` calls on one symbol, oldest first, each
carrying its new price and its timestamp. -/
def apply_updates (cfg : Config) (sym : String) (st : Store) (us : List (Int × Nat)) : Store :=
  us.foldl (fun st u => update_price cfg st sym u.1 u.2) st

/-- The history sample an `update_price` call appends. -/
def sampleOf (u : Int × Nat) : PriceSample :=
  { timestamp := u.2, price := u.1 }

/-- The last `k` elements of a list (all of it when `k` exceeds the
length). -/
def lastN (k : Nat) (l : List PriceSample) : List PriceSample :=
  l.drop (l.length - k)

/-! ### Helper lemmas -/

theorem read_setFile_self (st : Store) (sym : String) (f : FileState) :
    (setFile st sym f) sym = f := by
  simp [setFile]

theorem read_write_self (st : Store) (sym : String) (d : StockData) :
    read_stock_data (write_stock_data st sym d) sym = some d := by
  simp [read_stock_data, write_stock_data, setFile]

theorem read_write_other (st : Store) (sym s : String) (d : StockData) (h : s ≠ sym) :
    read_stock_data (write_stock_data st sym d) s = read_stock_data st s := by
  simp [read_stock_data, write_stock_data, setFile, h]

/-- Unfolding `update_price` on a readable document. -/
theorem read_update_self (cfg : Config) (st : Store) (sym : String) (d : StockData)
    (p : Int) (now : Nat) (h : read_stock_data st sym = some d) :
    read_stock_data (update_price cfg st sym p now) sym =
      some { d with
             current_price := p
             price_history :=
               trimHistory cfg.PRICE_HISTORY_MAX
                 (d.price_history ++ [{ timestamp := now, price := p }]) } := by
  unfold update_price
  rw [h]
  exact read_write_self _ _ _

/-- For a positive cap the trim is exactly `lastN`, whether or not the
length exceeds the cap. -/
theorem trimHistory_eq_lastN (cap : Nat) (hcap : 1 ≤ cap) (l : List PriceSample) :
    trimHistory cap l = lastN cap l := by
  unfold trimHistory pySliceLast lastN
  by_cases hlen : cap < l.length
  · rw [if_pos hlen, if_neg (by omega)]
  · rw [if_neg hlen]
    have hz : l.length - cap = 0 := by omega
    rw [hz, List.drop_zero]

theorem lastN_length (k : Nat) (l : List PriceSample) :
    (lastN k l).length = min k l.length := by
  unfold lastN
  rw [List.length_drop]
  omega

theorem lastN_length_le (k : Nat) (l : List PriceSample) :
    (lastN k l).length ≤ k := by
  rw [lastN_length]
  omega

/-- Taking the last `k` of a list, extending it, and taking the last `k`
again is the same as taking the last `k` of the extended list. -/
theorem lastN_lastN_append (k : Nat) (l r : List PriceSample) :
    lastN k (lastN k l ++ r) = lastN k (l ++ r) := by
  unfold lastN
  rw [List.drop_append_eq_append_drop, List.drop_append_eq_append_drop, List.drop_drop]
  simp only [List.length_append, List.length_drop]
  congr 1
  · congr 1
    omega
  · congr 1
    omega

/-- The appended sample survives the trim: it is always the last retained
entry. -/
theorem getLast?_trimHistory_append (cap : Nat) (l : List PriceSample) (e : PriceSample) :
    (trimHistory cap (l ++ [e])).getLast? = some e := by
  unfold trimHistory pySliceLast
  by_cases hlen : cap < (l ++ [e]).length
  · rw [if_pos hlen]
    by_cases hc : cap = 0
    · rw [if_pos hc]
      exact List.getLast?_concat l
    · rw [if_neg hc]
      have hle : (l ++ [e]).length - cap ≤ l.length := by
        simp only [List.length_append, List.length_singleton]
        omega
      rw [List.drop_append_of_le_length hle]
      exact List.getLast?_concat _
  · rw [if_neg hlen]
    exact List.getLast?_concat l

/-! ### Concrete fixtures for witnesses and counterexamples -/

/-- A sample configured team. -/
def teamA : Team :=
  { name := "Alpha", starting_price := 100, volatility := 0 }

/-- A one-team configuration with history cap 2 and decay factor 1/2. -/
def cfgEx : Config :=
  { TEAMS := [("A", teamA)], PRICE_HISTORY_MAX := 2, ACTIVITY_DECAY := 1/2 }

/-- The document for team A right after seeding at time 0. -/
def docA : StockData := seedDoc "A" teamA 0

/-- A store holding the freshly seeded document for symbol A. -/
def stEx : Store := fun s => if s = "A" then FileState.good docA else FileState.missing

/-- A store whose file for symbol A exists but fails to parse. -/
def stCor : Store := fun s => if s = "A" then FileState.corrupt else FileState.missing

/-! ### Claim theorems -/

/-- C1: for every symbol whose document exists and is readable and every
integer `p`, immediately after a successful `update_price(symbol, p)` the
value returned by `get_price(symbol)` equals `p` and equals the `price`
field of the last entry of that symbol's `price_history`. -/
theorem update_price_consistency (cfg : Config) (st : Store) (sym : String) (d : StockData)
    (p : Int) (now : Nat) (h : read_stock_data st sym = some d) :
    get_price (update_price cfg st sym p now) sym = some p ∧
    ∃ d', read_stock_data (update_price cfg st sym p now) sym = some d' ∧
      d'.price_history.getLast? = some { timestamp := now, price := p } := by
  have hr := read_update_self cfg st sym d p now h
  refine ⟨?_, ⟨_, hr, getLast?_trimHistory_append _ _ _⟩⟩
  unfold get_price
  rw [hr]

/-- Witness for C1 at a concrete store: updating A to 7 makes both
`get_price` and the last history entry read 7. -/
theorem update_price_consistency_witness :
    get_price (update_price cfgEx stEx "A" 7 1) "A" = some 7 ∧
    ∃ d', read_stock_data (update_price cfgEx stEx "A" 7 1) "A" = some d' ∧
      d'.price_history.getLast? = some { timestamp := 1, price := 7 } :=
  update_price_consistency cfgEx stEx "A" docA 7 1 (by decide)

/-- C10: a successful `update_price` appends exactly one new history
sample — the price argument is arbitrary, so this covers a new price equal
to the stored `current_price` — and below the cap the history grows by
exactly one entry. -/
theorem update_price_appends_one_sample (cfg : Config) (st : Store) (sym : String)
    (d : StockData) (p : Int) (now : Nat) (h : read_stock_data st sym = some d) :
    read_stock_data (update_price cfg st sym p now) sym =
      some { d with
             current_price := p
             price_history :=
               trimHistory cfg.PRICE_HISTORY_MAX
                 (d.price_history ++ [{ timestamp := now, price := p }]) } ∧
    (d.price_history.length < cfg.PRICE_HISTORY_MAX →
      (trimHistory cfg.PRICE_HISTORY_MAX
          (d.price_history ++ [{ timestamp := now, price := p }])).length =
        d.price_history.length + 1) := by
  refine ⟨read_update_self cfg st sym d p now h, fun hlt => ?_⟩
  unfold trimHistory
  rw [if_neg (by simp only [List.length_append, List.length_singleton]; omega)]
  simp only [List.length_append, List.length_singleton]

/-- Witness for C10: re-sending the unchanged price 100 to the seeded
store still appends a second (timestamped) history sample. -/
theorem update_price_appends_one_sample_witness :
    read_stock_data (update_price cfgEx stEx "A" 100 1) "A" =
      some { docA with
             current_price := 100
             price_history :=
               trimHistory cfgEx.PRICE_HISTORY_MAX
                 (docA.price_history ++ [{ timestamp := 1, price := 100 }]) } ∧
    (docA.price_history.length < cfgEx.PRICE_HISTORY_MAX →
      (trimHistory cfgEx.PRICE_HISTORY_MAX
          (docA.price_history ++ [{ timestamp := 1, price := 100 }])).length =
        docA.price_history.length + 1) :=
  update_price_appends_one_sample cfgEx stEx "A" docA 100 1 (by decide)

/-- C5 counterexample: `update_price` does not clamp.  Starting from the
seeded document whose `current_price` is 100 ≥ 0, updating with −1 stores
−1, a negative current price. -/
theorem update_price_no_clamp_cex :
    docA.current_price = 100 ∧
    get_price (update_price cfgEx stEx "A" (-1) 1) "A" = some (-1) ∧
    ((-1 : Int) < 0) := by
  decide

/-- C5 (amended): `update_price` stores the supplied price verbatim, so
`current_price` stays non-negative exactly when the supplied price is
non-negative; no clamping happens in the store's update path. -/
theorem update_price_nonneg_of_nonneg (cfg : Config) (st : Store) (sym : String)
    (d : StockData) (p : Int) (now : Nat) (h : read_stock_data st sym = some d)
    (hp : 0 ≤ p) :
    ∃ q, get_price (update_price cfg st sym p now) sym = some q ∧ 0 ≤ q ∧ q = p := by
  refine ⟨p, ?_, hp, rfl⟩
  have hr := read_update_self cfg st sym d p now h
  unfold get_price
  rw [hr]

/-- Witness for the amended C5: updating to the non-negative price 3
leaves a non-negative current price. -/
theorem update_price_nonneg_of_nonneg_witness :
    ∃ q, get_price (update_price cfgEx stEx "A" 3 1) "A" = some q ∧ 0 ≤ q ∧ q = 3 :=
  update_price_nonneg_of_nonneg cfgEx stEx "A" docA 3 1 (by decide) (by decide)

/-- C7 counterexample: with symbol A's file present but unparseable, an
`update_price` write leaves the corrupt file exactly as it was — no
well-formed document is recreated. -/
theorem update_price_leaves_corruption_cex :
    (update_price cfgEx stCor "A" 7 3) "A" = FileState.corrupt ∧
    read_stock_data (update_price cfgEx stCor "A" 7 3) "A" = none := by
  decide

/-- C7 (amended): `update_price` on a symbol whose document fails to parse
is a no-op — the read path reports the corrupt document as absent, the
update returns without writing, and the corrupt data stays in durable
storage. -/
theorem update_price_corrupt_noop (cfg : Config) (st : Store) (sym : String)
    (p : Int) (now : Nat) (h : st sym = FileState.corrupt) :
    update_price cfg st sym p now = st := by
  unfold update_price read_stock_data
  rw [h]

/-- Witness for the amended C7 at the concrete corrupt store. -/
theorem update_price_corrupt_noop_witness :
    update_price cfgEx stCor "A" 7 3 = stCor :=
  update_price_corrupt_noop cfgEx stCor "A" 7 3 (by decide)

/-- A two-entry-history document for symbol A. -/
def docB : StockData :=
  { team_name := "Alpha", symbol := "A", starting_price := 100, current_price := 101,
    volatility := 0,
    price_history := [{ timestamp := 0, price := 100 }, { timestamp := 1, price := 101 }] }

/-- A store holding `docB` for symbol A. -/
def stB : Store := fun s => if s = "A" then FileState.good docB else FileState.missing

/-- C8 counterexample: with an explicit `limit` of 0, `get_price_history`
returns the full two-entry history — not the most recent 0 samples (the
empty list) — because Python's `if limit:` treats 0 as falsy. -/
theorem get_price_history_zero_limit_cex :
    get_price_history stB "A" (some 0) = docB.price_history ∧
    docB.price_history.length = 2 := by
  decide

/-- C8 (amended): for a readable document, `get_price_history` returns the
full retained history when `limit` is absent **or 0**, and the most recent
`limit` samples (all of them when `limit` exceeds the length) for every
positive `limit`. -/
theorem get_price_history_spec (st : Store) (sym : String) (d : StockData)
    (h : read_stock_data st sym = some d) :
    get_price_history st sym none = d.price_history ∧
    get_price_history st sym (some 0) = d.price_history ∧
    ∀ k : Int, 1 ≤ k →
      get_price_history st sym (some k) = lastN k.toNat d.price_history := by
  unfold get_price_history
  rw [h]
  refine ⟨rfl, rfl, fun k hk => ?_⟩
  show (if k = 0 then d.price_history else pySliceFrom (-k) d.price_history) =
    lastN k.toNat d.price_history
  rw [if_neg (by omega)]
  unfold pySliceFrom lastN
  rw [if_neg (by omega), neg_neg]

/-- Witness for the amended C8 at the two-entry store, with `limit`
absent, 0, and 1. -/
theorem get_price_history_spec_witness :
    get_price_history stB "A" none = docB.price_history ∧
    get_price_history stB "A" (some 0) = docB.price_history ∧
    get_price_history stB "A" (some 1) = lastN (1 : Int).toNat docB.price_history := by
  have h := get_price_history_spec stB "A" docB (by decide)
  exact ⟨h.1, h.2.1, h.2.2 1 (by decide)⟩

/-- Reading a list of symbols skips exactly those whose document does not
read, so an unreadable symbol can be filtered away without changing the
result. -/
theorem filterMap_read_filter_ne (st : Store) (sym : String)
    (h : read_stock_data st sym = none) :
    ∀ l : List (String × Team),
      l.filterMap (fun p => read_stock_data st p.1) =
        (l.filter (fun p => p.1 ≠ sym)).filterMap (fun p => read_stock_data st p.1) := by
  intro l
  induction l with
  | nil => rfl
  | cons p tl ih =>
      by_cases hp : p.1 = sym
      · simp only [List.filterMap_cons, List.filter_cons, hp, h]
        simpa using ih
      · simp only [List.filterMap_cons, List.filter_cons]
        have hf : (p.1 ≠ sym) = True := by simp [hp]
        simp only [hf, decide_True, if_true, List.filterMap_cons]
        cases hr : read_stock_data st p.1 with
        | none => exact ih
        | some d => rw [ih]

/-- C6: a symbol whose file exists but fails to parse is reported as
not-found by `get_price` and `get_stock_info` (no exception), and
`get_all_stocks` returns the documents of the remaining configured
symbols, skipping the unreadable one without failing the whole call. -/
theorem corrupt_document_reads_not_found (cfg : Config) (st : Store) (sym : String)
    (h : st sym = FileState.corrupt) :
    get_price st sym = none ∧ get_stock_info st sym = none ∧
    get_all_stocks cfg st =
      (cfg.TEAMS.filter (fun p => p.1 ≠ sym)).filterMap
        (fun p => read_stock_data st p.1) := by
  have hread : read_stock_data st sym = none := by
    unfold read_stock_data
    rw [h]
  refine ⟨?_, ?_, ?_⟩
  · unfold get_price
    rw [hread]
  · exact hread
  · exact filterMap_read_filter_ne st sym hread cfg.TEAMS

/-- A second configured team, used in the two-team witness store. -/
def teamB : Team :=
  { name := "Beta", starting_price := 50, volatility := 0 }

/-- A two-team configuration. -/
def cfg2 : Config :=
  { TEAMS := [("A", teamA), ("B", teamB)], PRICE_HISTORY_MAX := 2, ACTIVITY_DECAY := 1/2 }

/-- The seeded document for team B. -/
def docBB : StockData := seedDoc "B" teamB 0

/-- A store where A's file is corrupt and B's document is readable. -/
def stMix : Store :=
  fun s =>
    if s = "A" then FileState.corrupt
    else if s = "B" then FileState.good docBB else FileState.missing

/-- Witness for C6: with A corrupt and B readable, reads on A report
not-found and `get_all_stocks` still returns B's document. -/
theorem corrupt_document_reads_not_found_witness :
    get_price stMix "A" = none ∧ get_stock_info stMix "A" = none ∧
    get_all_stocks cfg2 stMix =
      (cfg2.TEAMS.filter (fun p => p.1 ≠ "A")).filterMap
        (fun p => read_stock_data stMix p.1) :=
  corrupt_document_reads_not_found cfg2 stMix "A" (by decide)

/-- After `n` increments of one configured symbol, that symbol's stored
score has grown by exactly `n`. -/
theorem iterate_increments_apply (cfg : Config) (sym : String) (a : String → ℚ)
    (h : (configuredSymbols cfg).contains sym = true) :
    ∀ n : Nat, (iterate_increments cfg sym n a) sym = a sym + n := by
  intro n
  induction n with
  | zero => simp [iterate_increments]
  | succ m ih =>
      unfold iterate_increments increment_activity
      rw [h]
      simp only [if_true, if_pos rfl, ih]
      push_cast
      ring

/-- C9: for a configured symbol starting at score 0, `n` increments with
no decay yield score `n`, and a single subsequent `decay` yields
`n * d` where `d` is the configured decay factor. -/
theorem activity_increment_then_decay (cfg : Config) (sym : String) (n : Nat)
    (h : (configuredSymbols cfg).contains sym = true) :
    get_activity_score cfg (iterate_increments cfg sym n initialActivity) sym = n ∧
    get_activity_score cfg
        (decay_activity cfg (iterate_increments cfg sym n initialActivity)) sym =
      n * cfg.ACTIVITY_DECAY := by
  have hval : (iterate_increments cfg sym n initialActivity) sym = (n : ℚ) := by
    rw [iterate_increments_apply cfg sym initialActivity h n]
    simp [initialActivity]
  have hmem : sym ∈ configuredSymbols cfg := by
    simpa using h
  constructor
  · simp [get_activity_score, h, hmem, hval]
  · simp [get_activity_score, decay_activity, h, hmem, hval]

/-- Witness for C9: three increments of A give score 3; one decay with
`d = 1/2` gives 3/2. -/
theorem activity_increment_then_decay_witness :
    get_activity_score cfgEx (iterate_increments cfgEx "A" 3 initialActivity) "A" = (3 : Nat) ∧
    get_activity_score cfgEx
        (decay_activity cfgEx (iterate_increments cfgEx "A" 3 initialActivity)) "A" =
      (3 : Nat) * cfgEx.ACTIVITY_DECAY :=
  activity_increment_then_decay cfgEx "A" 3 (by decide)

/-- Characterization of a whole sequence of `update_price` calls on one
symbol: the retained history is the last `H` samples of the initial
history followed by the appended samples in call order. -/
theorem apply_updates_spec (cfg : Config) (sym : String)
    (hH : 1 ≤ cfg.PRICE_HISTORY_MAX) :
    ∀ (us : List (Int × Nat)) (st : Store) (d0 : StockData),
      read_stock_data st sym = some d0 →
      d0.price_history.length ≤ cfg.PRICE_HISTORY_MAX →
      ∃ d, read_stock_data (apply_updates cfg sym st us) sym = some d ∧
        d.price_history =
          lastN cfg.PRICE_HISTORY_MAX (d0.price_history ++ us.map sampleOf) ∧
        d.price_history.length ≤ cfg.PRICE_HISTORY_MAX := by
  intro us
  induction us with
  | nil =>
      intro st d0 h hlen
      refine ⟨d0, h, ?_, hlen⟩
      unfold lastN
      simp only [List.map_nil, List.append_nil]
      have hz : d0.price_history.length - cfg.PRICE_HISTORY_MAX = 0 := by omega
      rw [hz, List.drop_zero]
  | cons u tl ih =>
      intro st d0 h hlen
      have hr := read_update_self cfg st sym d0 u.1 u.2 h
      obtain ⟨d, hd, hhist, hlen'⟩ := ih (update_price cfg st sym u.1 u.2) _ hr
        (by
          show (trimHistory cfg.PRICE_HISTORY_MAX
            (d0.price_history ++ [{ timestamp := u.2, price := u.1 }])).length ≤ _
          rw [trimHistory_eq_lastN _ hH]
          exact lastN_length_le _ _)
      refine ⟨d, hd, ?_, hlen'⟩
      rw [hhist]
      show lastN cfg.PRICE_HISTORY_MAX
          (trimHistory cfg.PRICE_HISTORY_MAX
            (d0.price_history ++ [{ timestamp := u.2, price := u.1 }]) ++
            tl.map sampleOf) = _
      rw [trimHistory_eq_lastN _ hH, lastN_lastN_append, List.append_assoc]
      rfl

/-- C2: starting from an initialized symbol (a readable document whose
history is the single seed sample), after any finite sequence of
`update_price` calls the history length is at most the configured cap and
the retained entries are exactly the most recent samples — seed entry
plus appended prices — in call order.  The cap (`PRICE_HISTORY_MAX`, not
under src/) is taken positive, as the spec's non-empty-history invariant
requires. -/
theorem update_price_history_bound (cfg : Config) (st : Store) (sym : String)
    (s0 : PriceSample) (us : List (Int × Nat)) (d0 : StockData)
    (hH : 1 ≤ cfg.PRICE_HISTORY_MAX)
    (h : read_stock_data st sym = some d0) (hseed : d0.price_history = [s0]) :
    ∃ d, read_stock_data (apply_updates cfg sym st us) sym = some d ∧
      d.price_history = lastN cfg.PRICE_HISTORY_MAX (s0 :: us.map sampleOf) ∧
      d.price_history.length ≤ cfg.PRICE_HISTORY_MAX := by
  have hmain := apply_updates_spec cfg sym hH us st d0 h
    (by rw [hseed]; simpa using hH)
  rw [hseed] at hmain
  simpa using hmain

/-- Witness for C2: three updates on the freshly seeded store (cap 2)
retain exactly the two most recent samples. -/
theorem update_price_history_bound_witness :
    ∃ d, read_stock_data
        (apply_updates cfgEx "A" stEx [((101 : Int), 1), ((99 : Int), 2), ((102 : Int), 3)])
        "A" = some d ∧
      d.price_history =
        lastN cfgEx.PRICE_HISTORY_MAX
          ({ timestamp := 0, price := 100 } ::
            ([((101 : Int), 1), ((99 : Int), 2), ((102 : Int), 3)]).map sampleOf) ∧
      d.price_history.length ≤ cfgEx.PRICE_HISTORY_MAX :=
  update_price_history_bound cfgEx stEx "A" { timestamp := 0, price := 100 }
    [((101 : Int), 1), ((99 : Int), 2), ((102 : Int), 3)] docA
    (by decide) (by decide) (by decide)

theorem initStep_preserves (now : Nat) (st : Store) (p : String × Team) (s : String)
    (h : st s ≠ FileState.missing) : (initStep now st p) s ≠ FileState.missing := by
  unfold initStep write_stock_data setFile
  by_cases hc : st p.1 = FileState.missing
  · rw [if_pos hc]
    by_cases hs : s = p.1
    · simp [hs]
    · simpa [hs] using h
  · rw [if_neg hc]
    exact h

theorem initStep_self (now : Nat) (st : Store) (p : String × Team) :
    (initStep now st p) p.1 ≠ FileState.missing := by
  unfold initStep write_stock_data setFile
  by_cases hc : st p.1 = FileState.missing
  · simp [hc]
  · rw [if_neg hc]
    exact hc

theorem foldl_initStep_preserves (now : Nat) :
    ∀ (l : List (String × Team)) (st : Store) (s : String),
      st s ≠ FileState.missing → (l.foldl (initStep now) st) s ≠ FileState.missing := by
  intro l
  induction l with
  | nil => intro st s h; exact h
  | cons p tl ih => intro st s h; exact ih _ s (initStep_preserves now st p s h)

/-- After one `initialize` pass, every configured symbol's file exists. -/
theorem foldl_initStep_covers (now : Nat) :
    ∀ (l : List (String × Team)) (st : Store) (s : String),
      s ∈ l.map Prod.fst → (l.foldl (initStep now) st) s ≠ FileState.missing := by
  intro l
  induction l with
  | nil => intro st s h; simp at h
  | cons p tl ih =>
      intro st s h
      rw [List.map_cons, List.mem_cons] at h
      cases h with
      | inl hs =>
          subst hs
          exact foldl_initStep_preserves now tl _ _ (initStep_self now st p)
      | inr hs => exact ih _ s hs

/-- When every configured file already exists, `initialize` writes
nothing at all. -/
theorem foldl_initStep_noop (now : Nat) :
    ∀ (l : List (String × Team)) (st : Store),
      (∀ p ∈ l, st p.1 ≠ FileState.missing) → l.foldl (initStep now) st = st := by
  intro l
  induction l with
  | nil => intro st _; rfl
  | cons p tl ih =>
      intro st h
      have hstep : initStep now st p = st := by
        unfold initStep
        rw [if_neg (h p (List.mem_cons_self p tl))]
      show tl.foldl (initStep now) (initStep now st p) = st
      rw [hstep]
      exact ih st (fun q hq => h q (List.mem_cons_of_mem p hq))

/-- C3: `initialize` is idempotent — for any prior state of durable
storage, a second call leaves every file exactly as the first call left
it: nothing is overwritten, re-seeded, or grows history. -/
theorem initMarket_idempotent (cfg : Config) (st : Store) (now now' : Nat) :
    initMarket cfg (initMarket cfg st now) now' = initMarket cfg st now := by
  unfold initMarket
  apply foldl_initStep_noop
  intro p hp
  exact foldl_initStep_covers now cfg.TEAMS st p.1 (List.mem_map_of_mem Prod.fst hp)

theorem resetStep_other (now : Nat) (st : Store) (p : String × Team) (s : String)
    (h : s ≠ p.1) : (resetStep now st p) s = st s := by
  unfold resetStep
  cases read_stock_data st p.1 with
  | none => rfl
  | some d => simp [write_stock_data, setFile, h]

theorem foldl_resetStep_not_mem (now : Nat) :
    ∀ (l : List (String × Team)) (st : Store) (s : String),
      s ∉ l.map Prod.fst → (l.foldl (resetStep now) st) s = st s := by
  intro l
  induction l with
  | nil => intro st s _; rfl
  | cons p tl ih =>
      intro st s h
      rw [List.map_cons, List.mem_cons] at h
      push_neg at h
      show (tl.foldl (resetStep now) (resetStep now st p)) s = st s
      rw [ih _ s h.2, resetStep_other now st p s h.1]

/-- Effect of `reset_prices` on one configured symbol (unique in the team
table, as Python dict keys are): the current price returns to the starting
price and exactly one history sample is appended — with no trim. -/
theorem foldl_resetStep_read (now : Nat) (sym : String) (team : Team) :
    ∀ (l : List (String × Team)) (st : Store),
      (l.map Prod.fst).Nodup → (sym, team) ∈ l →
      read_stock_data (l.foldl (resetStep now) st) sym =
        (read_stock_data st sym).map (fun d =>
          { d with
            current_price := team.starting_price
            price_history :=
              d.price_history ++ [{ timestamp := now, price := team.starting_price }] }) := by
  intro l
  induction l with
  | nil => intro st _ hm; simp at hm
  | cons p tl ih =>
      intro st hnd hm
      rw [List.map_cons, List.nodup_cons] at hnd
      rw [List.mem_cons] at hm
      show read_stock_data (tl.foldl (resetStep now) (resetStep now st p)) sym = _
      cases hm with
      | inl hp =>
          have hp1 : p.1 = sym := by rw [← hp]
          have hp2 : p.2 = team := by rw [← hp]
          have hnotin : sym ∉ tl.map Prod.fst := by
            rw [← hp1]
            exact hnd.1
          have hread : read_stock_data (tl.foldl (resetStep now) (resetStep now st p)) sym =
              read_stock_data (resetStep now st p) sym := by
            unfold read_stock_data
            rw [foldl_resetStep_not_mem now tl (resetStep now st p) sym hnotin]
          rw [hread]
          unfold resetStep
          rw [hp1, hp2]
          cases hr : read_stock_data st sym with
          | none => exact hr
          | some d => exact read_write_self st sym _
      | inr htl =>
          have hp1ne : p.1 ≠ sym := by
            intro he
            apply hnd.1
            rw [he]
            exact List.mem_map_of_mem Prod.fst htl
          have hst : read_stock_data (resetStep now st p) sym = read_stock_data st sym := by
            unfold read_stock_data
            rw [resetStep_other now st p sym (fun he => hp1ne he.symm)]
          rw [ih (resetStep now st p) hnd.2 htl, hst]

theorem reset_prices_read (cfg : Config) (st : Store) (now : Nat) (sym : String)
    (team : Team) (hnd : (configuredSymbols cfg).Nodup) (hmem : (sym, team) ∈ cfg.TEAMS) :
    read_stock_data (reset_prices cfg st now) sym =
      (read_stock_data st sym).map (fun d =>
        { d with
          current_price := team.starting_price
          price_history :=
            d.price_history ++ [{ timestamp := now, price := team.starting_price }] }) :=
  foldl_resetStep_read now sym team cfg.TEAMS st hnd hmem

/-- One-team configuration with history cap 1, for the C4 counterexample. -/
def cfgH1 : Config :=
  { TEAMS := [("A", teamA)], PRICE_HISTORY_MAX := 1, ACTIVITY_DECAY := 0 }

/-- C4 counterexample: with cap `H = 1` and a document already holding
`H` samples, `reset_prices` appends without trimming and leaves the
history at length 2 > `H` — so the cap is not an invariant of
`reset_prices`. -/
theorem reset_prices_exceeds_cap_cex :
    ((read_stock_data stEx "A").map (fun d => d.price_history.length)) = some 1 ∧
    ((read_stock_data (reset_prices cfgH1 stEx 5) "A").map
      (fun d => d.price_history.length)) = some 2 ∧
    cfgH1.PRICE_HISTORY_MAX = 1 := by
  decide

/-- C4 (amended): starting from a document with `len(price_history) ≤ H`
(`H ≥ 1`), `update_price` preserves the bound, while `reset_prices`
appends exactly one sample without trimming, so it guarantees only
`len ≤ H + 1` and can exceed `H` when starting at exactly `H`. -/
theorem cap_after_update_and_reset (cfg : Config) (st : Store) (sym : String)
    (team : Team) (d : StockData) (p : Int) (now : Nat)
    (hH : 1 ≤ cfg.PRICE_HISTORY_MAX)
    (hnd : (configuredSymbols cfg).Nodup)
    (hmem : (sym, team) ∈ cfg.TEAMS)
    (h : read_stock_data st sym = some d)
    (hlen : d.price_history.length ≤ cfg.PRICE_HISTORY_MAX) :
    (∃ d', read_stock_data (update_price cfg st sym p now) sym = some d' ∧
        d'.price_history.length ≤ cfg.PRICE_HISTORY_MAX) ∧
    (∃ d', read_stock_data (reset_prices cfg st now) sym = some d' ∧
        d'.price_history.length = d.price_history.length + 1 ∧
        d'.price_history.length ≤ cfg.PRICE_HISTORY_MAX + 1) := by
  constructor
  · refine ⟨_, read_update_self cfg st sym d p now h, ?_⟩
    show (trimHistory cfg.PRICE_HISTORY_MAX
      (d.price_history ++ [{ timestamp := now, price := p }])).length ≤ _
    rw [trimHistory_eq_lastN _ hH]
    exact lastN_length_le _ _
  · have hr := reset_prices_read cfg st now sym team hnd hmem
    rw [h] at hr
    refine ⟨_, hr, ?_, ?_⟩
    · show (d.price_history ++
        [({ timestamp := now, price := team.starting_price } : PriceSample)]).length =
        d.price_history.length + 1
      simp
    · show (d.price_history ++
        [({ timestamp := now, price := team.starting_price } : PriceSample)]).length ≤
        cfg.PRICE_HISTORY_MAX + 1
      simp only [List.length_append, List.length_singleton]
      omega

/-- Witness for the amended C4 at the seeded one-team store with cap 2. -/
theorem cap_after_update_and_reset_witness :
    (∃ d', read_stock_data (update_price cfgEx stEx "A" 7 1) "A" = some d' ∧
        d'.price_history.length ≤ cfgEx.PRICE_HISTORY_MAX) ∧
    (∃ d', read_stock_data (reset_prices cfgEx stEx 1) "A" = some d' ∧
        d'.price_history.length = docA.price_history.length + 1 ∧
        d'.price_history.length ≤ cfgEx.PRICE_HISTORY_MAX + 1) :=
  cap_after_update_and_reset cfgEx stEx "A" teamA docA 7 1
    (by decide) (by decide) (by decide) (by decide) (by decide)

end VnStocks
